import Mathlib

/-!
# ConnectedPoints: vertex adjacency of a triangulated surface

A shallow embedding of the computational part of `main.cxx`:

* lines 44-60, "find connected points": the nested loops that push, for every cell and
  every ordered pair of distinct positions of the cell, the second point id onto the
  neighbour vector of the first;
* lines 62-66, "unique": `std::sort` followed by `std::unique` / `erase` on every
  neighbour vector;
* lines 72-85, "rebuild a surface with lines as cells": the emission of one line per
  stored neighbour that is greater than the current point id;
* lines 96-116, "node" / "neighbors": the read of `connectedPoints[pid]`.

`std::vector<std::vector<vtkIdType>>` is a `List (List Int)`.  `vtkIdType` is a signed
64-bit integer; the program only copies and compares ids and never does arithmetic on
them, so ids are unbounded integers here.  `operator[]` of a `std::vector` is unchecked:
an index past the end is undefined behaviour, which the embedding records as the outcome
`Outcome.undefined`.  `std::sort` on ids is the ascending rearrangement, which is unique
for integers.
-/

namespace ConnectedPoints

/-- The signed point and cell id type of the toolkit. -/
abbrev vtkIdType := Int

/-- The error kinds named by the specification.  `main.cxx` raises neither of them. -/
inductive ErrorKind where
  | OutOfRangeVertexId
  | OutOfRangeQuery
  deriving DecidableEq, Repr

/-- What running a fragment of `main` can produce: a value, a typed failure, or
undefined behaviour (an unchecked `operator[]` past the end of a `std::vector`). -/
inductive Outcome (α : Type) where
  | ok : α → Outcome α
  | failure : ErrorKind → Outcome α
  | undefined : Outcome α
  deriving DecidableEq, Repr

/-- The part of the `vtkPolyData` surface that `main` reads: `GetNumberOfPoints()` and,
for every cell, the point ids `GetPointId(0)`, ..., `GetPointId(GetNumberOfPoints() - 1)`. -/
structure Mesh where
  numberOfPoints : Nat
  cells : List (List vtkIdType)
  deriving DecidableEq, Repr

/-- Every point id of every cell lies in `[0, numberOfPoints)`. -/
def InRange (m : Mesh) : Prop :=
  ∀ c ∈ m.cells, ∀ p ∈ c, 0 ≤ p ∧ p < (m.numberOfPoints : Int)

instance (m : Mesh) : Decidable (InRange m) := by
  unfold InRange; infer_instance

/-- Every cell has exactly three points (the output of the triangle filter). -/
def Triangulated (m : Mesh) : Prop :=
  ∀ c ∈ m.cells, c.length = 3

instance (m : Mesh) : Decidable (Triangulated m) := by
  unfold Triangulated; infer_instance

/-- A `for` loop over `xs` whose body may have undefined behaviour: the loop stops at the
first iteration that does not produce a state. -/
def forEach {α σ : Type} (body : σ → α → Outcome σ) : List α → σ → Outcome σ
  | [], s => Outcome.ok s
  | x :: t, s =>
    match body s x with
    | Outcome.ok s1 => forEach body t s1
    | Outcome.failure e => Outcome.failure e
    | Outcome.undefined => Outcome.undefined

/-- The statement `connectedPoints[pointId0].push_back(pointId1)` (line 57).  The index is
converted to `size_t`, so a negative id is out of bounds like one that is too large. -/
def pushBack (cp : List (List vtkIdType)) (pointId0 pointId1 : vtkIdType) :
    Outcome (List (List vtkIdType)) :=
  if 0 ≤ pointId0 ∧ pointId0 < (cp.length : Int) then
    Outcome.ok (List.modify (fun l => l ++ [pointId1]) pointId0.toNat cp)
  else
    Outcome.undefined

/-- The innermost loop (lines 52-58) over the positions `cellPointId1` of the cell,
skipping the position `cellPointId0` itself. -/
def innerLoop (cell : List vtkIdType) (cellPointId0 : Nat) (pointId0 : vtkIdType)
    (cp : List (List vtkIdType)) : Outcome (List (List vtkIdType)) :=
  forEach (fun cp1 (kp : Nat × vtkIdType) =>
      if cellPointId0 = kp.1 then Outcome.ok cp1 else pushBack cp1 pointId0 kp.2)
    cell.enum cp

/-- The loop over the positions `cellPointId0` of one cell (lines 49-59). -/
def cellLoop (cell : List vtkIdType) (cp : List (List vtkIdType)) :
    Outcome (List (List vtkIdType)) :=
  forEach (fun cp1 (kp : Nat × vtkIdType) => innerLoop cell kp.1 kp.2 cp1) cell.enum cp

/-- Lines 44-60: `resize` to the number of points, then the loop over all cells. -/
def findConnectedPoints (m : Mesh) : Outcome (List (List vtkIdType)) :=
  forEach (fun cp1 cell => cellLoop cell cp1) m.cells (List.replicate m.numberOfPoints [])

/-- The call `std::sort(first, last)` on a vector of ids: the ascending rearrangement. -/
def sort (l : List vtkIdType) : List vtkIdType :=
  List.insertionSort (fun a b => a ≤ b) l

/-- The elements `std::unique` keeps after an element equal to `last` has been kept. -/
def uniqueFrom (last : vtkIdType) : List vtkIdType → List vtkIdType
  | [] => []
  | x :: t => if last = x then uniqueFrom last t else x :: uniqueFrom x t

/-- The idiom `v.erase(std::unique(v.begin(), v.end()), v.end())`: of every run of equal
adjacent elements only the first is kept. -/
def unique : List vtkIdType → List vtkIdType
  | [] => []
  | x :: t => x :: uniqueFrom x t

/-- The body of the "unique" loop (lines 64-65) on one neighbour vector. -/
def dedupe (l : List vtkIdType) : List vtkIdType :=
  unique (sort l)

/-- Lines 44-66: the value of `connectedPoints` after the "unique" loop.  The loop of
lines 62-66 indexes with `i < connectedPoints.size()` only. -/
def connectedPoints (m : Mesh) : Outcome (List (List vtkIdType)) :=
  match findConnectedPoints m with
  | Outcome.ok cp => Outcome.ok (cp.map dedupe)
  | Outcome.failure e => Outcome.failure e
  | Outcome.undefined => Outcome.undefined

/-- The inner loop of lines 75-84 for the point `pid0`: one line per stored id above it. -/
def linesOf (pid0 : vtkIdType) (nbrs : List vtkIdType) : List (vtkIdType × vtkIdType) :=
  nbrs.filterMap (fun pid1 => if pid1 ≤ pid0 then none else some (pid0, pid1))

/-- The loop of lines 72-85 from the index `i` on. -/
def linesFrom (i : Nat) : List (List vtkIdType) → List (vtkIdType × vtkIdType)
  | [] => []
  | nbrs :: rest => linesOf (i : Int) nbrs ++ linesFrom (i + 1) rest

/-- Lines 72-85: the point id pairs of the cells inserted into `lines`, in order. -/
def lines (cp : List (List vtkIdType)) : List (vtkIdType × vtkIdType) :=
  linesFrom 0 cp

/-- Lines 113-116: the ids read from `connectedPoints[pid]`, in the order of the loop. -/
def neighbors (cp : List (List vtkIdType)) (pid : vtkIdType) : Outcome (List vtkIdType) :=
  if 0 ≤ pid ∧ pid < (cp.length : Int) then
    Outcome.ok (cp.getD pid.toNat [])
  else
    Outcome.undefined

/-- The neighbour vector of the point `i`, empty when there is none. -/
def nbrs (cp : List (List vtkIdType)) (i : Nat) : List vtkIdType :=
  cp.getD i []

/-- The pairs `(pointId0, pointId1)` for which line 57 is reached in one cell, in the
order of the two loops over the positions of the cell. -/
def cellPairs (cell : List vtkIdType) : List (vtkIdType × vtkIdType) :=
  cell.enum.flatMap (fun kp0 =>
    cell.enum.filterMap (fun kp1 => if kp0.1 = kp1.1 then none else some (kp0.2, kp1.2)))

/-- The pairs for which line 57 is reached, over all cells in order. -/
def meshPairs (m : Mesh) : List (vtkIdType × vtkIdType) :=
  m.cells.flatMap cellPairs

/-- Line 57 executed for a sequence of pairs. -/
def pushAll (pairs : List (vtkIdType × vtkIdType)) (cp : List (List vtkIdType)) :
    Outcome (List (List vtkIdType)) :=
  forEach (fun cp1 q => pushBack cp1 q.1 q.2) pairs cp

/-- The ids pushed onto the neighbour vector of the point `i`, in order. -/
def pushed (pairs : List (vtkIdType × vtkIdType)) (i : Nat) : List vtkIdType :=
  pairs.filterMap (fun q => if q.1 = (i : Int) then some q.2 else none)

/-- Some cell lists `a` and `b` at two different positions. -/
def Adjacent (m : Mesh) (a b : vtkIdType) : Prop :=
  ∃ cell ∈ m.cells, ∃ k0 k1 : Nat, k0 ≠ k1 ∧ cell[k0]? = some a ∧ cell[k1]? = some b

/-- Ascending by first id, then by second id, strictly. -/
def lexLt (x y : vtkIdType × vtkIdType) : Prop :=
  x.1 < y.1 ∨ (x.1 = y.1 ∧ x.2 < y.2)

instance (x y : vtkIdType × vtkIdType) : Decidable (lexLt x y) := by
  unfold lexLt; infer_instance

/-- Scenario A: one triangle on three points. -/
def meshA : Mesh := ⟨3, [[0, 1, 2]]⟩

/-- Scenario B: two triangles sharing the edge 1-2. -/
def meshB : Mesh := ⟨4, [[0, 1, 2], [1, 2, 3]]⟩

/-- A mesh with a degenerate triangle: the point 0 is listed twice. -/
def meshDegenerate : Mesh := ⟨2, [[0, 0, 1]]⟩

/-- Scenario D: a triangle referencing the id `numberOfPoints`. -/
def meshD : Mesh := ⟨3, [[0, 1, 3]]⟩

/-- The pair of two ids with the smaller one first. -/
def orient (x y : vtkIdType) : vtkIdType × vtkIdType :=
  if x ≤ y then (x, y) else (y, x)

/-- The three sides of a triangle, each with the smaller id first. -/
def triEdges : List vtkIdType → List (vtkIdType × vtkIdType)
  | [x, y, z] => [orient x y, orient x z, orient y z]
  | _ => []

/-- Two cells share an edge: two different point ids occur in both. -/
def sharesEdge (c1 c2 : List vtkIdType) : Prop :=
  ∃ a ∈ c1, ∃ b ∈ c1, a ≠ b ∧ a ∈ c2 ∧ b ∈ c2

instance (c1 c2 : List vtkIdType) : Decidable (sharesEdge c1 c2) := by
  unfold sharesEdge; infer_instance

/-! ## The sort and unique steps -/

theorem mem_of_mem_uniqueFrom {x : vtkIdType} :
    ∀ (l : List vtkIdType) (a : vtkIdType), x ∈ uniqueFrom a l → x ∈ l := by
  intro l
  induction l with
  | nil => intro a h; simp [uniqueFrom] at h
  | cons y t ih =>
    intro a h
    unfold uniqueFrom at h
    split at h
    · exact List.mem_cons_of_mem _ (ih a h)
    · rcases List.mem_cons.mp h with h1 | h1
      · exact h1 ▸ List.mem_cons_self _ _
      · exact List.mem_cons_of_mem _ (ih y h1)

theorem mem_uniqueFrom_of_mem {x : vtkIdType} :
    ∀ (l : List vtkIdType) (a : vtkIdType), x ∈ l → x = a ∨ x ∈ uniqueFrom a l := by
  intro l
  induction l with
  | nil => intro a h; cases h
  | cons y t ih =>
    intro a h
    unfold uniqueFrom
    rcases List.mem_cons.mp h with h1 | h1
    · subst h1
      by_cases hax : a = x
      · exact Or.inl hax.symm
      · right; simp [hax]
    · by_cases hay : a = y
      · simpa [hay] using ih y h1
      · rcases ih y h1 with h2 | h2
        · right; simp [hay, h2]
        · right; simp [hay, h2]

theorem mem_unique {x : vtkIdType} (l : List vtkIdType) : x ∈ unique l ↔ x ∈ l := by
  cases l with
  | nil => simp [unique]
  | cons a t =>
    unfold unique
    constructor
    · intro h
      rcases List.mem_cons.mp h with h1 | h1
      · exact h1 ▸ List.mem_cons_self _ _
      · exact List.mem_cons_of_mem _ (mem_of_mem_uniqueFrom t a h1)
    · intro h
      rcases List.mem_cons.mp h with h1 | h1
      · exact h1 ▸ List.mem_cons_self _ _
      · rcases mem_uniqueFrom_of_mem t a h1 with h2 | h2
        · exact h2 ▸ List.mem_cons_self _ _
        · exact List.mem_cons_of_mem _ h2

theorem mem_sort {x : vtkIdType} (l : List vtkIdType) : x ∈ sort l ↔ x ∈ l :=
  (List.perm_insertionSort _ l).mem_iff

theorem mem_dedupe {x : vtkIdType} (l : List vtkIdType) : x ∈ dedupe l ↔ x ∈ l := by
  unfold dedupe
  rw [mem_unique, mem_sort]

theorem sorted_sort (l : List vtkIdType) : List.Sorted (fun a b => a ≤ b) (sort l) :=
  List.sorted_insertionSort _ l

theorem sorted_cons_uniqueFrom :
    ∀ (l : List vtkIdType) (a : vtkIdType), List.Sorted (fun a b => a ≤ b) (a :: l) →
      List.Sorted (fun a b => a < b) (a :: uniqueFrom a l) := by
  intro l
  induction l with
  | nil => intro a _; simp [uniqueFrom]
  | cons y t ih =>
    intro a h
    have hay : a ≤ y := List.rel_of_sorted_cons h y (List.mem_cons_self _ _)
    have hyt : List.Sorted (fun a b => a ≤ b) (y :: t) := List.Sorted.of_cons h
    unfold uniqueFrom
    by_cases e : a = y
    · subst e
      simpa using ih a hyt
    · simp only [e, if_false]
      have hlt : a < y := lt_of_le_of_ne hay e
      have ih1 := ih y hyt
      refine List.sorted_cons.mpr ⟨fun b hb => ?_, ih1⟩
      rcases List.mem_cons.mp hb with h1 | h1
      · exact h1 ▸ hlt
      · exact lt_of_lt_of_le hlt
          (List.rel_of_sorted_cons hyt b (mem_of_mem_uniqueFrom t y h1))

theorem sorted_unique (l : List vtkIdType) (h : List.Sorted (fun a b => a ≤ b) l) :
    List.Sorted (fun a b => a < b) (unique l) := by
  cases l with
  | nil => simp [unique]
  | cons a t => exact sorted_cons_uniqueFrom t a h

theorem sorted_dedupe (l : List vtkIdType) : List.Sorted (fun a b => a < b) (dedupe l) :=
  sorted_unique _ (sorted_sort l)

theorem uniqueFrom_of_sorted :
    ∀ (l : List vtkIdType) (a : vtkIdType), List.Sorted (fun a b => a < b) (a :: l) →
      uniqueFrom a l = l := by
  intro l
  induction l with
  | nil => intro a _; rfl
  | cons y t ih =>
    intro a h
    have hay : a < y := List.rel_of_sorted_cons h y (List.mem_cons_self _ _)
    have hyt : List.Sorted (fun a b => a < b) (y :: t) := List.Sorted.of_cons h
    unfold uniqueFrom
    rw [if_neg (ne_of_lt hay), ih y hyt]

theorem unique_of_sorted (l : List vtkIdType) (h : List.Sorted (fun a b => a < b) l) :
    unique l = l := by
  cases l with
  | nil => rfl
  | cons a t => simp only [unique]; rw [uniqueFrom_of_sorted t a h]

theorem sort_of_sorted (l : List vtkIdType) (h : List.Sorted (fun a b => a < b) l) :
    sort l = l :=
  List.Sorted.insertionSort_eq (List.Pairwise.imp (fun hab => le_of_lt hab) h)

theorem dedupe_of_sorted (l : List vtkIdType) (h : List.Sorted (fun a b => a < b) l) :
    dedupe l = l := by
  unfold dedupe
  rw [sort_of_sorted l h, unique_of_sorted l h]

/-! ## The loops of "find connected points" -/

theorem forEach_append {α σ : Type} (body : σ → α → Outcome σ) :
    ∀ (xs ys : List α) (s : σ),
      forEach body (xs ++ ys) s =
        match forEach body xs s with
        | Outcome.ok s1 => forEach body ys s1
        | Outcome.failure e => Outcome.failure e
        | Outcome.undefined => Outcome.undefined := by
  intro xs
  induction xs with
  | nil => intro ys s; rfl
  | cons x t ih =>
    intro ys s
    simp only [List.cons_append, forEach]
    cases body s x with
    | ok s1 => exact ih ys s1
    | failure e => rfl
    | undefined => rfl

theorem forEach_flatMap {α β σ : Type} (body : σ → β → Outcome σ) (f : α → List β) :
    ∀ (xs : List α) (s : σ),
      forEach body (xs.flatMap f) s = forEach (fun s1 x => forEach body (f x) s1) xs s := by
  intro xs
  induction xs with
  | nil => intro s; rfl
  | cons x t ih =>
    intro s
    rw [List.flatMap_cons, forEach_append]
    simp only [forEach]
    cases forEach body (f x) s with
    | ok s1 => exact ih s1
    | failure e => rfl
    | undefined => rfl

theorem forEach_filterMap {α β σ : Type} (body : σ → β → Outcome σ) (f : α → Option β) :
    ∀ (xs : List α) (s : σ),
      forEach body (xs.filterMap f) s =
        forEach (fun s1 x => match f x with
          | none => Outcome.ok s1
          | some y => body s1 y) xs s := by
  intro xs
  induction xs with
  | nil => intro s; rfl
  | cons x t ih =>
    intro s
    rw [List.filterMap_cons]
    cases hfx : f x with
    | none => simp only [forEach, hfx]; exact ih s
    | some y =>
      simp only [forEach, hfx]
      cases body s y with
      | ok s1 => exact ih s1
      | failure e => rfl
      | undefined => rfl

theorem cellLoop_eq_pushAll (cell : List vtkIdType) (cp : List (List vtkIdType)) :
    cellLoop cell cp = pushAll (cellPairs cell) cp := by
  unfold cellLoop pushAll cellPairs
  rw [forEach_flatMap]
  congr 1
  funext cp1 kp0
  unfold innerLoop
  rw [forEach_filterMap]
  congr 1
  funext cp2 kp1
  by_cases h : kp0.1 = kp1.1 <;> simp [h]

theorem findConnectedPoints_eq_pushAll (m : Mesh) :
    findConnectedPoints m = pushAll (meshPairs m) (List.replicate m.numberOfPoints []) := by
  unfold findConnectedPoints meshPairs pushAll
  rw [forEach_flatMap]
  congr 1
  funext cp1 cell
  exact cellLoop_eq_pushAll cell cp1

theorem getD_modify_append (cp : List (List vtkIdType)) (n : Nat) (x : vtkIdType)
    (hn : n < cp.length) (i : Nat) :
    (List.modify (fun l => l ++ [x]) n cp).getD i [] =
      if n = i then cp.getD i [] ++ [x] else cp.getD i [] := by
  simp only [List.getD_eq_getElem?_getD, List.getElem?_modify]
  by_cases h : n = i
  · subst h
    simp [List.getElem?_eq_getElem hn]
  · simp only [h, if_false]
    cases cp[i]? <;> simp

theorem pushAll_ok :
    ∀ (pairs : List (vtkIdType × vtkIdType)) (cp : List (List vtkIdType)),
      (∀ q ∈ pairs, 0 ≤ q.1 ∧ q.1 < (cp.length : Int)) →
      ∃ cp1, pushAll pairs cp = Outcome.ok cp1 ∧ cp1.length = cp.length ∧
        ∀ i : Nat, cp1.getD i [] = cp.getD i [] ++ pushed pairs i := by
  intro pairs
  induction pairs with
  | nil => intro cp _; exact ⟨cp, rfl, rfl, fun i => by simp [pushed]⟩
  | cons q t ih =>
    intro cp h
    have hq := h q (List.mem_cons_self _ _)
    have hlen : (List.modify (fun l => l ++ [q.2]) q.1.toNat cp).length = cp.length :=
      List.length_modify _ _ _
    obtain ⟨cp1, h1, h2, h3⟩ := ih (List.modify (fun l => l ++ [q.2]) q.1.toNat cp)
      (fun r hr => by rw [hlen]; exact h r (List.mem_cons_of_mem _ hr))
    refine ⟨cp1, ?_, h2.trans hlen, fun i => ?_⟩
    · unfold pushAll at h1 ⊢
      simp only [forEach, pushBack, hq, and_self, if_true]
      exact h1
    · have hn : q.1.toNat < cp.length := by unfold vtkIdType at *; omega
      rw [h3 i, getD_modify_append cp _ _ hn i]
      have hiff : q.1.toNat = i ↔ q.1 = (i : Int) := by unfold vtkIdType at *; omega
      unfold pushed
      rw [List.filterMap_cons]
      by_cases e : q.1 = (i : Int)
      · simp [e, hiff.mpr e]
      · have e1 : ¬ q.1.toNat = i := fun h => e (hiff.mp h)
        simp [e, e1]

theorem pushAll_undefined :
    ∀ (pairs : List (vtkIdType × vtkIdType)) (cp : List (List vtkIdType)),
      (∃ q ∈ pairs, ¬ (0 ≤ q.1 ∧ q.1 < (cp.length : Int))) →
      pushAll pairs cp = Outcome.undefined := by
  intro pairs
  induction pairs with
  | nil => intro cp h; obtain ⟨q, hq, _⟩ := h; cases hq
  | cons q t ih =>
    intro cp h
    unfold pushAll
    by_cases hq : 0 ≤ q.1 ∧ q.1 < (cp.length : Int)
    · simp only [forEach, pushBack, hq, and_self, if_true]
      apply ih
      obtain ⟨r, hr, hbad⟩ := h
      rcases List.mem_cons.mp hr with e | e
      · exact absurd (e ▸ hq) hbad
      · exact ⟨r, e, by rw [List.length_modify]; exact hbad⟩
    · simp only [forEach, pushBack, hq, if_false]

theorem mem_cellPairs (cell : List vtkIdType) (a b : vtkIdType) :
    (a, b) ∈ cellPairs cell ↔
      ∃ k0 k1 : Nat, k0 ≠ k1 ∧ cell[k0]? = some a ∧ cell[k1]? = some b := by
  unfold cellPairs
  simp only [List.mem_flatMap, List.mem_filterMap]
  constructor
  · rintro ⟨⟨k0, x⟩, h0, ⟨k1, y⟩, h1, h2⟩
    by_cases e : k0 = k1
    · simp [e] at h2
    · simp only [e, if_false, Option.some.injEq, Prod.mk.injEq] at h2
      obtain ⟨rfl, rfl⟩ := h2
      exact ⟨k0, k1, e, List.mk_mem_enum_iff_getElem?.mp h0,
        List.mk_mem_enum_iff_getElem?.mp h1⟩
  · rintro ⟨k0, k1, e, h0, h1⟩
    exact ⟨(k0, a), List.mk_mem_enum_iff_getElem?.mpr h0, (k1, b),
      List.mk_mem_enum_iff_getElem?.mpr h1, by simp [e]⟩

theorem mem_meshPairs (m : Mesh) (a b : vtkIdType) :
    (a, b) ∈ meshPairs m ↔ Adjacent m a b := by
  unfold meshPairs Adjacent
  simp only [List.mem_flatMap, mem_cellPairs]

theorem mem_pushed (pairs : List (vtkIdType × vtkIdType)) (i : Nat) (b : vtkIdType) :
    b ∈ pushed pairs i ↔ ((i : Int), b) ∈ pairs := by
  unfold pushed
  simp only [List.mem_filterMap]
  constructor
  · rintro ⟨⟨x, y⟩, hq, h⟩
    by_cases e : x = (i : Int)
    · simp only [e, if_true, Option.some.injEq] at h
      subst h; subst e; exact hq
    · simp [e] at h
  · intro h
    exact ⟨((i : Int), b), h, by simp⟩

theorem adjacent_symm {m : Mesh} {a b : vtkIdType} (h : Adjacent m a b) : Adjacent m b a := by
  obtain ⟨c, hc, k0, k1, e, h0, h1⟩ := h
  exact ⟨c, hc, k1, k0, Ne.symm e, h1, h0⟩

theorem adjacent_mem {m : Mesh} {a b : vtkIdType} (h : Adjacent m a b) :
    ∃ c ∈ m.cells, a ∈ c ∧ b ∈ c := by
  obtain ⟨c, hc, k0, k1, _, h0, h1⟩ := h
  exact ⟨c, hc, List.getElem?_mem h0, List.getElem?_mem h1⟩

theorem adjacent_of_mem {m : Mesh} {a b : vtkIdType} {c : List vtkIdType}
    (hc : c ∈ m.cells) (ha : a ∈ c) (hb : b ∈ c) (hab : a ≠ b) : Adjacent m a b := by
  obtain ⟨k0, h0⟩ := List.getElem?_of_mem ha
  obtain ⟨k1, h1⟩ := List.getElem?_of_mem hb
  refine ⟨c, hc, k0, k1, ?_, h0, h1⟩
  intro e
  subst e
  rw [h0] at h1
  exact hab (Option.some.inj h1)

theorem getD_map_dedupe (cp : List (List vtkIdType)) (i : Nat) :
    (cp.map dedupe).getD i [] = dedupe (cp.getD i []) := by
  simp only [List.getD_eq_getElem?_getD, List.getElem?_map]
  cases cp[i]? <;> simp [dedupe, sort, unique]

theorem meshPairs_inRange (m : Mesh) (h : InRange m) :
    ∀ q ∈ meshPairs m, 0 ≤ q.1 ∧ q.1 < (m.numberOfPoints : Int) := by
  rintro ⟨a, b⟩ hq
  obtain ⟨c, hc, ha, _⟩ := adjacent_mem ((mem_meshPairs m a b).mp hq)
  exact h c hc a ha

/-- With all point ids in range the loops and the "unique" step run to completion: there
is one neighbour vector per point, and that of `i` is the sorted, duplicate-free form of
what was pushed onto it. -/
theorem connectedPoints_ok (m : Mesh) (h : InRange m) :
    ∃ g, connectedPoints m = Outcome.ok g ∧ g.length = m.numberOfPoints ∧
      ∀ i : Nat, nbrs g i = dedupe (pushed (meshPairs m) i) := by
  obtain ⟨cp1, h1, h2, h3⟩ := pushAll_ok (meshPairs m) (List.replicate m.numberOfPoints [])
    (by simpa using meshPairs_inRange m h)
  refine ⟨cp1.map dedupe, ?_, ?_, fun i => ?_⟩
  · unfold connectedPoints
    rw [findConnectedPoints_eq_pushAll, h1]
  · simpa using h2
  · unfold nbrs
    rw [getD_map_dedupe, h3 i]
    congr 1
    simp [List.getD_eq_getElem?_getD, List.getElem?_replicate]
    split <;> rfl

theorem mem_nbrs_iff (m : Mesh) (g : List (List vtkIdType))
    (hg : ∀ i : Nat, nbrs g i = dedupe (pushed (meshPairs m) i)) (i : Nat) (b : vtkIdType) :
    b ∈ nbrs g i ↔ Adjacent m (i : Int) b := by
  rw [hg i, mem_dedupe, mem_pushed, mem_meshPairs]

/-! ## The emission of lines -/

theorem mem_linesOf (p : vtkIdType) (l : List vtkIdType) (a b : vtkIdType) :
    (a, b) ∈ linesOf p l ↔ a = p ∧ b ∈ l ∧ p < b := by
  unfold linesOf
  simp only [List.mem_filterMap]
  constructor
  · rintro ⟨x, hx, h⟩
    by_cases e : x ≤ p
    · simp [e] at h
    · simp only [e, if_false, Option.some.injEq, Prod.mk.injEq] at h
      obtain ⟨rfl, rfl⟩ := h
      exact ⟨rfl, hx, lt_of_not_ge e⟩
  · rintro ⟨rfl, hb, hlt⟩
    exact ⟨b, hb, by simp [not_le.mpr hlt]⟩

theorem mem_linesFrom :
    ∀ (g : List (List vtkIdType)) (i : Nat) (a b : vtkIdType),
      (a, b) ∈ linesFrom i g ↔ ∃ k : Nat, a = ((i + k : Nat) : Int) ∧ b ∈ nbrs g k ∧ a < b := by
  intro g
  induction g with
  | nil =>
    intro i a b
    simp [linesFrom, nbrs]
  | cons nb rest ih =>
    intro i a b
    simp only [linesFrom, List.mem_append, mem_linesOf, ih]
    constructor
    · rintro (⟨h1, h2, h3⟩ | ⟨k, h1, h2, h3⟩)
      · exact ⟨0, by simpa using h1, by simpa [nbrs] using h2, h1 ▸ h3⟩
      · exact ⟨k + 1, by rw [h1]; congr 1; omega, by simpa [nbrs] using h2, h3⟩
    · rintro ⟨k, h1, h2, h3⟩
      cases k with
      | zero =>
        left
        have h1' : a = (i : Int) := by simpa using h1
        exact ⟨h1', by simpa [nbrs] using h2, h1' ▸ h3⟩
      | succ k =>
        right
        exact ⟨k, by rw [h1]; congr 1; omega, by simpa [nbrs] using h2, h3⟩

theorem mem_lines (g : List (List vtkIdType)) (a b : vtkIdType) :
    (a, b) ∈ lines g ↔ ∃ k : Nat, a = (k : Int) ∧ b ∈ nbrs g k ∧ a < b := by
  unfold lines
  rw [mem_linesFrom]
  simp

theorem sorted_linesOf (p : vtkIdType) (l : List vtkIdType)
    (h : List.Sorted (fun a b => a < b) l) : List.Pairwise lexLt (linesOf p l) := by
  unfold linesOf
  refine List.Pairwise.filterMap _ ?_ h
  intro x y hxy u hu v hv
  by_cases ex : x ≤ p
  · simp [ex] at hu
  · by_cases ey : y ≤ p
    · simp [ey] at hv
    · simp only [ex, ey, if_false, Option.mem_def, Option.some.injEq] at hu hv
      subst hu; subst hv
      exact Or.inr ⟨rfl, hxy⟩

theorem sorted_linesFrom :
    ∀ (g : List (List vtkIdType)) (i : Nat),
      (∀ k : Nat, List.Sorted (fun a b => a < b) (nbrs g k)) →
      List.Pairwise lexLt (linesFrom i g) := by
  intro g
  induction g with
  | nil => intro i _; simp [linesFrom]
  | cons nb rest ih =>
    intro i h
    simp only [linesFrom]
    rw [List.pairwise_append]
    refine ⟨sorted_linesOf _ _ (by simpa [nbrs] using h 0),
      ih (i + 1) (fun k => by simpa [nbrs] using h (k + 1)), ?_⟩
    rintro ⟨a, b⟩ hab ⟨u, v⟩ huv
    obtain ⟨ha, _, _⟩ := (mem_linesOf _ _ _ _).mp hab
    obtain ⟨k, hu, _, _⟩ := (mem_linesFrom _ _ _ _).mp huv
    left
    show a < u
    rw [ha, hu]
    exact Int.ofNat_lt.mpr (by omega)

theorem sorted_lines (g : List (List vtkIdType))
    (h : ∀ k : Nat, List.Sorted (fun a b => a < b) (nbrs g k)) :
    List.Pairwise lexLt (lines g) :=
  sorted_linesFrom g 0 h

theorem count_eq_one_of_nodup (l : List (vtkIdType × vtkIdType)) (x : vtkIdType × vtkIdType)
    (hnd : l.Nodup) (hx : x ∈ l) : l.count x = 1 := by
  have e : l.count x = @List.count _ instBEqOfDecidableEq x l := by
    unfold List.count
    apply List.countP_congr
    intro y _
    constructor
    · intro h
      exact decide_eq_true (eq_of_beq h)
    · intro h
      have hyx : y = x := of_decide_eq_true h
      rw [hyx]
      exact LawfulBEq.rfl
  rw [e]
  exact List.count_eq_one_of_mem hnd hx

theorem nodup_of_pairwise_lexLt (l : List (vtkIdType × vtkIdType))
    (h : List.Pairwise lexLt l) : l.Nodup := by
  refine List.Pairwise.imp ?_ h
  intro x y hxy e
  subst e
  rcases hxy with h1 | ⟨_, h2⟩
  · exact lt_irrefl _ h1
  · exact lt_irrefl _ h2

/-! ## Out-of-range ids -/

theorem pushAll_ne_failure :
    ∀ (pairs : List (vtkIdType × vtkIdType)) (cp : List (List vtkIdType)) (e : ErrorKind),
      pushAll pairs cp ≠ Outcome.failure e := by
  intro pairs
  induction pairs with
  | nil => intro cp e h; cases h
  | cons q t ih =>
    intro cp e
    unfold pushAll
    by_cases hq : 0 ≤ q.1 ∧ q.1 < (cp.length : Int)
    · simp only [forEach, pushBack, hq, and_self, if_true]
      exact ih _ e
    · simp only [forEach, pushBack, hq, if_false]
      intro h; cases h

theorem connectedPoints_ne_failure (m : Mesh) (e : ErrorKind) :
    connectedPoints m ≠ Outcome.failure e := by
  unfold connectedPoints
  rw [findConnectedPoints_eq_pushAll]
  have h := pushAll_ne_failure (meshPairs m) (List.replicate m.numberOfPoints [])
  cases hp : pushAll (meshPairs m) (List.replicate m.numberOfPoints []) with
  | ok cp => intro h1; cases h1
  | failure e1 => exact absurd hp (h e1)
  | undefined => intro h1; cases h1

theorem exists_bad_pair (m : Mesh) (ht : Triangulated m) (h : ¬ InRange m) :
    ∃ q ∈ meshPairs m, ¬ (0 ≤ q.1 ∧ q.1 < (m.numberOfPoints : Int)) := by
  unfold InRange at h
  push_neg at h
  obtain ⟨cell, hc, p, hp, hbad⟩ := h
  have hlen := ht cell hc
  obtain ⟨k, hk⟩ := List.getElem?_of_mem hp
  have hk3 : k < 3 := by
    have := (List.getElem?_eq_some.mp hk).1
    omega
  by_cases k0 : k = 0
  · have h1 : 1 < cell.length := by omega
    refine ⟨(p, cell[1]), ?_, fun hq => ?_⟩
    · exact (mem_meshPairs m _ _).mpr
        ⟨cell, hc, k, 1, by omega, hk, List.getElem?_eq_getElem h1⟩
    · exact absurd hq.2 (not_lt.mpr (hbad hq.1))
  · have h0 : 0 < cell.length := by omega
    refine ⟨(p, cell[0]), ?_, fun hq => ?_⟩
    · exact (mem_meshPairs m _ _).mpr
        ⟨cell, hc, k, 0, k0, hk, List.getElem?_eq_getElem h0⟩
    · exact absurd hq.2 (not_lt.mpr (hbad hq.1))

theorem connectedPoints_undefined (m : Mesh) (ht : Triangulated m) (h : ¬ InRange m) :
    connectedPoints m = Outcome.undefined := by
  unfold connectedPoints
  rw [findConnectedPoints_eq_pushAll,
    pushAll_undefined _ _ (by simpa using exists_bad_pair m ht h)]

/-! ## Counting lines -/

theorem orient_of_lt {a b : vtkIdType} (h : a < b) : orient a b = (a, b) := by
  unfold orient
  rw [if_pos (le_of_lt h)]

theorem orient_of_gt {a b : vtkIdType} (h : a < b) : orient b a = (a, b) := by
  unfold orient
  rw [if_neg (not_le.mpr h)]

theorem mem_triEdges (cell : List vtkIdType) (hlen : cell.length = 3) (a b : vtkIdType)
    (ha : a ∈ cell) (hb : b ∈ cell) (hab : a < b) : (a, b) ∈ triEdges cell := by
  match cell, hlen with
  | [x, y, z], _ =>
    have e1 := orient_of_lt hab
    have e2 := orient_of_gt hab
    have hne : ¬ a < a := lt_irrefl a
    simp only [List.mem_cons, List.mem_singleton, List.not_mem_nil, or_false] at ha hb
    simp only [triEdges, List.mem_cons, List.mem_singleton, List.not_mem_nil, or_false]
    rcases ha with rfl | rfl | rfl <;> rcases hb with rfl | rfl | rfl <;>
      first
      | exact absurd hab hne
      | exact Or.inl e1.symm
      | exact Or.inl e2.symm
      | exact Or.inr (Or.inl e1.symm)
      | exact Or.inr (Or.inl e2.symm)
      | exact Or.inr (Or.inr e1.symm)
      | exact Or.inr (Or.inr e2.symm)

theorem length_flatMap_triEdges :
    ∀ cells : List (List vtkIdType), (∀ cell ∈ cells, cell.length = 3) →
      (cells.flatMap triEdges).length = 3 * cells.length := by
  intro cells
  induction cells with
  | nil => intro _; rfl
  | cons cell rest ih =>
    intro h
    have h3 : (triEdges cell).length = 3 := by
      match cell, h cell (List.mem_cons_self _ _) with
      | [x, y, z], _ => rfl
    rw [List.flatMap_cons, List.length_append, h3,
      ih (fun c hc => h c (List.mem_cons_of_mem _ hc)), List.length_cons]
    omega

theorem lines_subset_triEdges (m : Mesh) (ht : Triangulated m) (g : List (List vtkIdType))
    (hg : ∀ i : Nat, nbrs g i = dedupe (pushed (meshPairs m) i)) :
    lines g ⊆ m.cells.flatMap triEdges := by
  rintro ⟨a, b⟩ hab
  obtain ⟨k, ha, hb, hlt⟩ := (mem_lines g a b).mp hab
  obtain ⟨cell, hc, h1, h2⟩ := adjacent_mem ((mem_nbrs_iff m g hg k b).mp hb)
  exact List.mem_flatMap.mpr ⟨cell, hc, mem_triEdges cell (ht cell hc) a b (ha ▸ h1) h2 hlt⟩

theorem not_sharesEdge_of_nodup (cells : List (List vtkIdType))
    (hlen : ∀ cell ∈ cells, cell.length = 3) (hnd : (cells.flatMap triEdges).Nodup)
    (t1 t2 : Nat) (ht : t1 < t2) (c1 c2 : List vtkIdType)
    (h1 : cells[t1]? = some c1) (h2 : cells[t2]? = some c2) : ¬ sharesEdge c1 c2 := by
  rintro ⟨a, ha1, b, hb1, hne, ha2, hb2⟩
  have hpw := (List.nodup_flatMap.mp hnd).2
  obtain ⟨hl1, e1⟩ := List.getElem?_eq_some.mp h1
  obtain ⟨hl2, e2⟩ := List.getElem?_eq_some.mp h2
  have hdis := List.pairwise_iff_getElem.mp hpw t1 t2 hl1 hl2 ht
  rw [e1, e2] at hdis
  have hc1 : c1.length = 3 := hlen c1 (List.getElem?_mem h1)
  have hc2 : c2.length = 3 := hlen c2 (List.getElem?_mem h2)
  rcases lt_or_gt_of_ne hne with hlt | hlt
  · exact hdis (mem_triEdges c1 hc1 a b ha1 hb1 hlt) (mem_triEdges c2 hc2 a b ha2 hb2 hlt)
  · exact hdis (mem_triEdges c1 hc1 b a hb1 ha1 hlt) (mem_triEdges c2 hc2 b a hb2 ha2 hlt)

/-! ## The scenarios of the specification, evaluated -/

theorem scenarioA_connectedPoints :
    connectedPoints meshA = Outcome.ok [[1, 2], [0, 2], [0, 1]] := by decide

theorem scenarioA_lines : lines [[1, 2], [0, 2], [0, 1]] = [(0, 1), (0, 2), (1, 2)] := by
  decide

theorem scenarioB_connectedPoints :
    connectedPoints meshB = Outcome.ok [[1, 2], [0, 2, 3], [0, 1, 3], [1, 2]] := by decide

theorem scenarioC_connectedPoints :
    connectedPoints ⟨0, []⟩ = Outcome.ok [] ∧ lines [] = [] := by decide

/-! ## The adjacency graph -/

/-- C1: with every point id of every cell in `[0, numberOfPoints)` the loops complete, and
the graph is symmetric: `j` is stored as a neighbour of `i` exactly when `i` is stored as
a neighbour of `j`. -/
theorem connectedPoints_symmetric (m : Mesh) (h : InRange m) :
    ∃ g, connectedPoints m = Outcome.ok g ∧
      ∀ i j : Nat, ((j : Int) ∈ nbrs g i ↔ (i : Int) ∈ nbrs g j) := by
  obtain ⟨g, h1, _, h3⟩ := connectedPoints_ok m h
  refine ⟨g, h1, fun i j => ?_⟩
  rw [mem_nbrs_iff m g h3, mem_nbrs_iff m g h3]
  exact ⟨adjacent_symm, adjacent_symm⟩

theorem connectedPoints_symmetric_witness :
    InRange meshB ∧ ∃ g, connectedPoints meshB = Outcome.ok g ∧
      ∀ i j : Nat, ((j : Int) ∈ nbrs g i ↔ (i : Int) ∈ nbrs g j) :=
  ⟨by decide, connectedPoints_symmetric meshB (by decide)⟩

/-- C2, as the specification states it, fails: the triangle `(0, 0, 1)` on two points has
all ids in range, the loops complete, and the point 0 is stored as a neighbour of itself. -/
theorem selfLoop_of_degenerate_triangle :
    InRange meshDegenerate ∧ connectedPoints meshDegenerate = Outcome.ok [[0, 1], [0]] ∧
      (0 : Int) ∈ nbrs [[0, 1], [0]] 0 := by decide

/-- C2, amended: with every point id in range the loops complete, degenerate cells
included; the point `i` is stored as a neighbour of itself exactly when some cell lists `i`
at two different positions (line 54 compares positions, not ids), so a mesh without a
repeated id in a cell has no self-loop. -/
theorem selfLoop_iff_repeated (m : Mesh) (h : InRange m) :
    ∃ g, connectedPoints m = Outcome.ok g ∧
      (∀ i : Nat, ((i : Int) ∈ nbrs g i ↔
        ∃ cell ∈ m.cells, ∃ k0 k1 : Nat,
          k0 ≠ k1 ∧ cell[k0]? = some (i : Int) ∧ cell[k1]? = some (i : Int))) ∧
      ((∀ cell ∈ m.cells, cell.Nodup) → ∀ i : Nat, (i : Int) ∉ nbrs g i) := by
  obtain ⟨g, h1, _, h3⟩ := connectedPoints_ok m h
  refine ⟨g, h1, fun i => mem_nbrs_iff m g h3 i _, fun hnd i hi => ?_⟩
  obtain ⟨cell, hc, k0, k1, hne, e0, e1⟩ := (mem_nbrs_iff m g h3 i _).mp hi
  obtain ⟨l0, g0⟩ := List.getElem?_eq_some.mp e0
  obtain ⟨l1, g1⟩ := List.getElem?_eq_some.mp e1
  exact hne (((hnd cell hc).getElem_inj_iff).mp (g0.trans g1.symm))

theorem selfLoop_iff_repeated_witness :
    (InRange meshDegenerate ∧ ∃ g, connectedPoints meshDegenerate = Outcome.ok g ∧
      (∀ i : Nat, ((i : Int) ∈ nbrs g i ↔
        ∃ cell ∈ meshDegenerate.cells, ∃ k0 k1 : Nat,
          k0 ≠ k1 ∧ cell[k0]? = some (i : Int) ∧ cell[k1]? = some (i : Int))) ∧
      ((∀ cell ∈ meshDegenerate.cells, cell.Nodup) → ∀ i : Nat, (i : Int) ∉ nbrs g i)) ∧
    (InRange meshB ∧ (∀ cell ∈ meshB.cells, cell.Nodup) ∧
      ∃ g, connectedPoints meshB = Outcome.ok g ∧ ∀ i : Nat, (i : Int) ∉ nbrs g i) :=
  ⟨⟨by decide, selfLoop_iff_repeated meshDegenerate (by decide)⟩,
    by decide, by decide,
    (selfLoop_iff_repeated meshB (by decide)).elim
      (fun g hg => ⟨g, hg.1, hg.2.2 (by decide)⟩)⟩

/-- C3: with every point id in range, every neighbour vector of the graph is strictly
ascending after the "unique" step: sorted and without duplicates. -/
theorem neighbors_strictly_ascending (m : Mesh) (h : InRange m) :
    ∃ g, connectedPoints m = Outcome.ok g ∧
      (∀ i : Nat, List.Sorted (fun a b => a < b) (nbrs g i)) ∧
      ∀ l ∈ g, List.Sorted (fun a b => a < b) l := by
  obtain ⟨g, h1, _, h3⟩ := connectedPoints_ok m h
  have hs : ∀ i : Nat, List.Sorted (fun a b => a < b) (nbrs g i) := fun i => by
    rw [h3 i]; exact sorted_dedupe _
  refine ⟨g, h1, hs, fun l hl => ?_⟩
  obtain ⟨i, hi⟩ := List.getElem?_of_mem hl
  have := hs i
  simpa [nbrs, List.getD_eq_getElem?_getD, hi] using this

theorem neighbors_strictly_ascending_witness :
    InRange meshB ∧ ∃ g, connectedPoints meshB = Outcome.ok g ∧
      (∀ i : Nat, List.Sorted (fun a b => a < b) (nbrs g i)) ∧
      ∀ l ∈ g, List.Sorted (fun a b => a < b) l :=
  ⟨by decide, neighbors_strictly_ascending meshB (by decide)⟩

/-- C4: with every point id in range, for distinct points `i` and `j` the id `j` is stored
as a neighbour of `i` exactly when some cell contains both; the graph has one neighbour
vector per point, and a point that is in no cell has an empty one. -/
theorem neighbors_iff_shared_cell (m : Mesh) (h : InRange m) :
    ∃ g, connectedPoints m = Outcome.ok g ∧ g.length = m.numberOfPoints ∧
      (∀ i j : Nat, i ≠ j →
        ((j : Int) ∈ nbrs g i ↔ ∃ cell ∈ m.cells, (i : Int) ∈ cell ∧ (j : Int) ∈ cell)) ∧
      (∀ i : Nat, (∀ cell ∈ m.cells, (i : Int) ∉ cell) → nbrs g i = []) := by
  obtain ⟨g, h1, h2, h3⟩ := connectedPoints_ok m h
  refine ⟨g, h1, h2, fun i j hij => ?_, fun i hi => ?_⟩
  · rw [mem_nbrs_iff m g h3]
    constructor
    · exact fun hadj => adjacent_mem hadj
    · rintro ⟨cell, hc, ha, hb⟩
      exact adjacent_of_mem hc ha hb (fun e => hij (Int.ofNat_inj.mp e))
  · apply List.eq_nil_iff_forall_not_mem.mpr
    intro b hb
    obtain ⟨cell, hc, ha, _⟩ := adjacent_mem ((mem_nbrs_iff m g h3 i b).mp hb)
    exact hi cell hc ha

theorem neighbors_iff_shared_cell_witness :
    InRange meshB ∧ ∃ g, connectedPoints meshB = Outcome.ok g ∧ g.length = meshB.numberOfPoints ∧
      (∀ i j : Nat, i ≠ j →
        ((j : Int) ∈ nbrs g i ↔ ∃ cell ∈ meshB.cells, (i : Int) ∈ cell ∧ (j : Int) ∈ cell)) ∧
      (∀ i : Nat, (∀ cell ∈ meshB.cells, (i : Int) ∉ cell) → nbrs g i = []) :=
  ⟨by decide, neighbors_iff_shared_cell meshB (by decide)⟩

/-! ## Ids out of range -/

/-- C5, as the specification states it, fails: for the triangle `(0, 1, 3)` on three
points line 57 indexes `connectedPoints` past its end, which is undefined behaviour; no
`OutOfRangeVertexId` failure is raised. -/
theorem outOfRange_vertex_not_typed_failure :
    ¬ InRange meshD ∧ connectedPoints meshD = Outcome.undefined ∧
      connectedPoints meshD ≠ Outcome.failure ErrorKind.OutOfRangeVertexId := by decide

/-- C5, amended: with every point id in range the loops complete with one neighbour vector
per point; there is no range check and no typed failure on any input; on a triangulated
mesh with an id outside `[0, numberOfPoints)` line 57 indexes the vector out of bounds and
the behaviour is undefined. -/
theorem connectedPoints_defined_iff_inRange (m : Mesh) :
    (InRange m → ∃ g, connectedPoints m = Outcome.ok g ∧ g.length = m.numberOfPoints) ∧
    (Triangulated m → ¬ InRange m → connectedPoints m = Outcome.undefined) ∧
    (∀ e : ErrorKind, connectedPoints m ≠ Outcome.failure e) := by
  refine ⟨fun h => ?_, connectedPoints_undefined m, connectedPoints_ne_failure m⟩
  obtain ⟨g, h1, h2, _⟩ := connectedPoints_ok m h
  exact ⟨g, h1, h2⟩

theorem connectedPoints_defined_iff_inRange_witness :
    (InRange meshA ∧ ∃ g, connectedPoints meshA = Outcome.ok g ∧ g.length = meshA.numberOfPoints) ∧
    (Triangulated meshD ∧ ¬ InRange meshD ∧ connectedPoints meshD = Outcome.undefined) :=
  ⟨⟨by decide, (connectedPoints_defined_iff_inRange meshA).1 (by decide)⟩,
    by decide, by decide,
    (connectedPoints_defined_iff_inRange meshD).2.1 (by decide) (by decide)⟩

/-! ## The lines -/

/-- C6: with every point id in range, every emitted line `(a, b)` has `a < b` with `b`
stored as a neighbour of `a`, and for every point `i` and stored neighbour `b` above it
the line `(i, b)` is emitted exactly once and `(b, i)` never. -/
theorem lines_each_edge_once (m : Mesh) (h : InRange m) :
    ∃ g, connectedPoints m = Outcome.ok g ∧
      (∀ a b : vtkIdType, (a, b) ∈ lines g →
        a < b ∧ ∃ i : Nat, a = (i : Int) ∧ i < m.numberOfPoints ∧ b ∈ nbrs g i) ∧
      (∀ (i : Nat) (b : vtkIdType), (i : Int) < b → b ∈ nbrs g i →
        (lines g).count ((i : Int), b) = 1 ∧ (b, (i : Int)) ∉ lines g) := by
  obtain ⟨g, h1, h2, h3⟩ := connectedPoints_ok m h
  have hs : ∀ i : Nat, List.Sorted (fun a b => a < b) (nbrs g i) := fun i => by
    rw [h3 i]; exact sorted_dedupe _
  have hnd : (lines g).Nodup := nodup_of_pairwise_lexLt _ (sorted_lines g hs)
  refine ⟨g, h1, fun a b hab => ?_, fun i b hib hb => ⟨?_, fun hmem => ?_⟩⟩
  · obtain ⟨k, ha, hb, hlt⟩ := (mem_lines g a b).mp hab
    refine ⟨hlt, k, ha, ?_, hb⟩
    by_contra hk
    have : nbrs g k = [] := by
      unfold nbrs
      rw [List.getD_eq_getElem?_getD, List.getElem?_eq_none (by omega)]
      rfl
    rw [this] at hb
    cases hb
  · exact count_eq_one_of_nodup _ _ hnd ((mem_lines g _ b).mpr ⟨i, rfl, hb, hib⟩)
  · obtain ⟨_, _, _, hlt⟩ := (mem_lines g b _).mp hmem
    exact lt_asymm hib hlt

theorem lines_each_edge_once_witness :
    InRange meshB ∧ ∃ g, connectedPoints meshB = Outcome.ok g ∧
      (∀ a b : vtkIdType, (a, b) ∈ lines g →
        a < b ∧ ∃ i : Nat, a = (i : Int) ∧ i < meshB.numberOfPoints ∧ b ∈ nbrs g i) ∧
      (∀ (i : Nat) (b : vtkIdType), (i : Int) < b → b ∈ nbrs g i →
        (lines g).count ((i : Int), b) = 1 ∧ (b, (i : Int)) ∉ lines g) :=
  ⟨by decide, lines_each_edge_once meshB (by decide)⟩

/-- C7: the two triangles `(0, 1, 2)` and `(1, 2, 3)` give exactly the lines
`(0,1), (0,2), (1,2), (1,3), (2,3)`, and with every point id in range the emitted lines
are strictly ascending by first id, then by second id. -/
theorem lines_lex_ascending :
    (∃ g, connectedPoints meshB = Outcome.ok g ∧
      lines g = [(0, 1), (0, 2), (1, 2), (1, 3), (2, 3)]) ∧
    ∀ m : Mesh, InRange m →
      ∃ g, connectedPoints m = Outcome.ok g ∧ List.Pairwise lexLt (lines g) := by
  refine ⟨⟨_, scenarioB_connectedPoints, by decide⟩, fun m h => ?_⟩
  obtain ⟨g, h1, _, h3⟩ := connectedPoints_ok m h
  exact ⟨g, h1, sorted_lines g (fun i => by rw [h3 i]; exact sorted_dedupe _)⟩

theorem lines_lex_ascending_witness :
    InRange meshB ∧
      ∃ g, connectedPoints meshB = Outcome.ok g ∧ List.Pairwise lexLt (lines g) :=
  ⟨by decide, lines_lex_ascending.2 meshB (by decide)⟩

/-- C8: on a triangulated mesh with every point id in range there are at most
`3 * numberOfTriangles` lines, and when there are exactly that many no two triangles of
the mesh share an edge. -/
theorem lines_length_le (m : Mesh) (ht : Triangulated m) (h : InRange m) :
    ∃ g, connectedPoints m = Outcome.ok g ∧
      (lines g).length ≤ 3 * m.cells.length ∧
      ((lines g).length = 3 * m.cells.length →
        ∀ (t1 t2 : Nat) (c1 c2 : List vtkIdType), t1 < t2 →
          m.cells[t1]? = some c1 → m.cells[t2]? = some c2 → ¬ sharesEdge c1 c2) := by
  obtain ⟨g, h1, _, h3⟩ := connectedPoints_ok m h
  have hs : ∀ i : Nat, List.Sorted (fun a b => a < b) (nbrs g i) := fun i => by
    rw [h3 i]; exact sorted_dedupe _
  have hnd : (lines g).Nodup := nodup_of_pairwise_lexLt _ (sorted_lines g hs)
  have hsub := hnd.subperm (lines_subset_triEdges m ht g h3)
  have hlen := length_flatMap_triEdges m.cells ht
  refine ⟨g, h1, hlen ▸ hsub.length_le, fun heq t1 t2 c1 c2 hlt e1 e2 => ?_⟩
  have hperm := hsub.perm_of_length_le (by rw [hlen, heq])
  exact not_sharesEdge_of_nodup m.cells ht (hperm.nodup_iff.mp hnd) t1 t2 hlt c1 c2 e1 e2

theorem lines_length_le_witness :
    Triangulated meshB ∧ InRange meshB ∧ ∃ g, connectedPoints meshB = Outcome.ok g ∧
      (lines g).length ≤ 3 * meshB.cells.length ∧
      ((lines g).length = 3 * meshB.cells.length →
        ∀ (t1 t2 : Nat) (c1 c2 : List vtkIdType), t1 < t2 →
          meshB.cells[t1]? = some c1 → meshB.cells[t2]? = some c2 → ¬ sharesEdge c1 c2) :=
  ⟨by decide, by decide, lines_length_le meshB (by decide) (by decide)⟩

/-! ## The neighbour query -/

/-- C9, as the specification states it, fails: on the graph of the empty mesh the read of
`connectedPoints[0]` is past the end of the vector, which is undefined behaviour; no
`OutOfRangeQuery` failure is raised. -/
theorem outOfRange_query_not_typed_failure :
    connectedPoints ⟨0, []⟩ = Outcome.ok [] ∧ neighbors [] 0 = Outcome.undefined ∧
      neighbors [] 0 ≠ Outcome.failure ErrorKind.OutOfRangeQuery := by decide

/-- C9, amended: the read of `connectedPoints[pid]` is a direct lookup without a range
check: for `pid` in `[0, N)` it yields the stored neighbour vector unchanged, for any
other `pid` it is out of bounds and the behaviour is undefined, and it raises no typed
failure on any input. -/
theorem neighbors_lookup (g : List (List vtkIdType)) (pid : vtkIdType) :
    (0 ≤ pid ∧ pid < (g.length : Int) →
      ∃ l, g[pid.toNat]? = some l ∧ neighbors g pid = Outcome.ok l) ∧
    (¬ (0 ≤ pid ∧ pid < (g.length : Int)) → neighbors g pid = Outcome.undefined) ∧
    (∀ e : ErrorKind, neighbors g pid ≠ Outcome.failure e) := by
  refine ⟨fun h => ?_, fun h => ?_, fun e => ?_⟩
  · have hn : pid.toNat < g.length := by unfold vtkIdType at *; omega
    refine ⟨g[pid.toNat], List.getElem?_eq_getElem hn, ?_⟩
    unfold neighbors
    rw [if_pos h, List.getD_eq_getElem?_getD, List.getElem?_eq_getElem hn]
    rfl
  · unfold neighbors
    rw [if_neg h]
  · unfold neighbors
    split <;> intro h1 <;> cases h1

theorem neighbors_lookup_witness :
    ((0 : Int) ≤ 1 ∧ (1 : Int) < (([[1, 2], [0, 2], [0, 1]] : List (List vtkIdType)).length : Int) ∧
      ∃ l, ([[1, 2], [0, 2], [0, 1]] : List (List vtkIdType))[(1 : Int).toNat]? = some l ∧
        neighbors [[1, 2], [0, 2], [0, 1]] 1 = Outcome.ok l) ∧
    (¬ ((0 : Int) ≤ 0 ∧ (0 : Int) < (([] : List (List vtkIdType)).length : Int)) ∧
      neighbors [] 0 = Outcome.undefined) :=
  ⟨⟨by decide, by decide, (neighbors_lookup [[1, 2], [0, 2], [0, 1]] 1).1 (by decide)⟩,
    by decide, (neighbors_lookup [] 0).2.1 (by decide)⟩

/-! ## Idempotence of the "unique" step -/

/-- C10: sorting and removing adjacent duplicates twice gives the same list as doing it
once, and a list that is already strictly ascending is returned unchanged. -/
theorem dedupe_idempotent :
    (∀ l : List vtkIdType, dedupe (dedupe l) = dedupe l) ∧
    (∀ l : List vtkIdType, List.Sorted (fun a b => a < b) l → dedupe l = l) :=
  ⟨fun l => dedupe_of_sorted _ (sorted_dedupe l), dedupe_of_sorted⟩

theorem dedupe_idempotent_witness :
    List.Sorted (fun a b => a < b) ([0, 2, 3] : List vtkIdType) ∧
      dedupe [0, 2, 3] = [0, 2, 3] :=
  ⟨by decide, dedupe_idempotent.2 [0, 2, 3] (by decide)⟩

end ConnectedPoints
